import Mathlib

/-!
Verification of the unemployment-day calculation engine in
src/utils/calculator.ts of the tracker repository.

Modelling choices for the shallow embedding:
- Dates are modelled as calendar-day numbers (Int).  Every date entering the
  pipeline is first normalized with startOfDay (normalizeDate), so a
  normalized date is fully described by its day number; normalizeDate is the
  identity on day numbers, and differenceInCalendarDays of the date-fns
  library is subtraction of day numbers.
- JavaScript numbers are modelled as Int where the code only adds, subtracts,
  compares and takes max/min of whole-day counts, and as exact rationals
  where the code divides (percentage computations).
- The TypeScript type declarations (types.ts) are not part of the sources;
  the structure fields below are modelled from the spec data model (section 3)
  and from their uses in calculator.ts.
-/

/-- Modelled from the spec: an EmploymentInterval has an employer label, an
inclusive start date and an optional end date (absent means ongoing).  Field
uses match calculator.ts. -/
structure EmploymentSpan where
  employerName : String
  startDate : Int
  endDate : Option Int
deriving Repr, DecidableEq

/-- Modelled from the spec: the phase tag of an eligibility period. -/
inductive EADType where
  | OPT
  | STEM
deriving Repr, DecidableEq

/-- Modelled from the spec: an EligibilityPeriod (EAD period) is a phase tag
with an inclusive start and end date.  The field named type in the source is
called ptype here because type is a reserved word in Lean. -/
structure EADPeriod where
  ptype : EADType
  startDate : Int
  endDate : Int
deriving Repr, DecidableEq

/-- Modelled from the spec: a ClampedInterval (MergedSpan in the source), a
plain start and end date pair. -/
structure MergedSpan where
  startDate : Int
  endDate : Int
deriving Repr, DecidableEq

/-- Modelled from the spec: a PeriodSummary (UnemploymentSummary in the
source). -/
structure UnemploymentSummary where
  phase : EADType
  usedDays : Int
  remainingDays : Int
  limitDays : Int
  percentage : ℚ
deriving Repr, DecidableEq

/-- Modelled from the spec: the tri-state compliance status. -/
inductive ComplianceStatus where
  | normal
  | warning
  | violation
deriving Repr, DecidableEq

/-- Modelled from the spec: a ComplianceResult (CalculationResult in the
source). -/
structure CalculationResult where
  phase1 : UnemploymentSummary
  phase2 : Option UnemploymentSummary
  totalUsedDays : Int
  totalAllowedDays : Int
  status : ComplianceStatus
  statusMessage : String
deriving Repr, DecidableEq

/-- Constant OPT_UNEMPLOYMENT_LIMIT = 90 days, from calculator.ts. -/
def OPT_UNEMPLOYMENT_LIMIT : Int := 90

/-- Constant TOTAL_UNEMPLOYMENT_LIMIT_WITH_STEM = 150 days, from
calculator.ts. -/
def TOTAL_UNEMPLOYMENT_LIMIT_WITH_STEM : Int := 150

/-- Embeds normalizeDate of calculator.ts: startOfDay is the identity on
day numbers. -/
def normalizeDate (date : Int) : Int := date

/-- Embeds differenceInCalendarDays of date-fns on normalized dates:
subtraction of day numbers. -/
def differenceInCalendarDays (a b : Int) : Int := a - b

/-- Embeds calculateDaysBetween of calculator.ts: inclusive day count. -/
def calculateDaysBetween (startDate endDate : Int) : Int :=
  differenceInCalendarDays (normalizeDate endDate) (normalizeDate startDate) + 1

/-- Embeds the resolution of an employment span end used in clampSpanToEAD:
an absent end date is treated as the reference date. -/
def resolveSpanEnd (span : EmploymentSpan) (referenceDate : Int) : Int :=
  match span.endDate with
  | some d => normalizeDate d
  | none => referenceDate

/-- Embeds clampSpanToEAD of calculator.ts. -/
def clampSpanToEAD (span : EmploymentSpan) (eadPeriod : EADPeriod)
    (referenceDate : Int) : Option MergedSpan :=
  let spanStart := normalizeDate span.startDate
  let spanEnd := resolveSpanEnd span referenceDate
  let eadStart := normalizeDate eadPeriod.startDate
  let eadEnd := normalizeDate eadPeriod.endDate
  if spanStart > eadEnd ∨ spanEnd < eadStart then
    none
  else
    some { startDate := max spanStart eadStart, endDate := min spanEnd eadEnd }

/-- Embeds the loop of mergeOverlappingSpans: current is the accumulator
span, the list is the remaining input. -/
def mergeAux : MergedSpan → List MergedSpan → List MergedSpan
  | current, [] => [current]
  | current, next :: rest =>
    let daysBetween := differenceInCalendarDays next.startDate current.endDate
    if daysBetween ≤ 1 then
      mergeAux { startDate := current.startDate,
                 endDate := max current.endDate next.endDate } rest
    else
      current :: mergeAux next rest

/-- Embeds mergeOverlappingSpans of calculator.ts (assumes input sorted by
start date). -/
def mergeOverlappingSpans : List MergedSpan → List MergedSpan
  | [] => []
  | s :: rest => mergeAux s rest

/-- Embeds the sort step of calculateEmployedDays: a stable sort by start
date ascending (the JavaScript comparator subtracts start dates, and the
Array sort of the runtime is stable, so any stable sort by the same key is
extensionally the same function on lists). -/
def sortSpansByStart (spans : List MergedSpan) : List MergedSpan :=
  List.insertionSort (fun a b => a.startDate ≤ b.startDate) spans

/-- Embeds calculateEmployedDays of calculator.ts: clamp, drop the
non-overlapping spans, sort, merge, sum inclusive day counts. -/
def calculateEmployedDays (employmentSpans : List EmploymentSpan)
    (eadPeriod : EADPeriod) (referenceDate : Int) : Int :=
  let clampedSpans := employmentSpans.filterMap
    (fun span => clampSpanToEAD span eadPeriod referenceDate)
  let sortedSpans := sortSpansByStart clampedSpans
  let mergedSpans := mergeOverlappingSpans sortedSpans
  mergedSpans.foldl
    (fun total span => total + calculateDaysBetween span.startDate span.endDate) 0

/-- Embeds calculateUnemploymentForPeriod of calculator.ts. -/
def calculateUnemploymentForPeriod (employmentSpans : List EmploymentSpan)
    (eadPeriod : EADPeriod) (limitDays : Int) (referenceDate : Int) :
    UnemploymentSummary :=
  let eadStart := normalizeDate eadPeriod.startDate
  let eadEnd := normalizeDate eadPeriod.endDate
  let effectiveEnd := min eadEnd referenceDate
  if effectiveEnd < eadStart then
    { phase := eadPeriod.ptype
      usedDays := 0
      remainingDays := limitDays
      limitDays := limitDays
      percentage := 0 }
  else
    let adjustedPeriod : EADPeriod :=
      { eadPeriod with startDate := eadStart, endDate := effectiveEnd }
    let totalDaysInPeriod :=
      calculateDaysBetween adjustedPeriod.startDate adjustedPeriod.endDate
    let employedDays :=
      calculateEmployedDays employmentSpans adjustedPeriod referenceDate
    let usedDays := max 0 (totalDaysInPeriod - employedDays)
    let remainingDays := max 0 (limitDays - usedDays)
    let percentage : ℚ :=
      if limitDays > 0 then
        ((usedDays : ℚ) / (limitDays : ℚ)) * 100
      else if usedDays > 0 then
        100
      else
        0
    { phase := eadPeriod.ptype
      usedDays := usedDays
      remainingDays := remainingDays
      limitDays := limitDays
      percentage := percentage }

/-- The violation message string of determineStatus in calculator.ts. -/
def violationMessage : String :=
  "You have exceeded the allowed unemployment days. You may be out of status. Please consult your international student office immediately."

/-- The warning message string of determineStatus in calculator.ts. -/
def warningMessage : String :=
  "You are approaching the unemployment limit. Please find employment soon to maintain status."

/-- The normal message string of determineStatus in calculator.ts. -/
def normalMessage : String :=
  "Your unemployment days are within the allowed limit."

/-- Embeds determineStatus of calculator.ts; the ratio is computed in exact
rational arithmetic. -/
def determineStatus (totalUsedDays totalAllowedDays : Int) :
    ComplianceStatus × String :=
  if totalUsedDays > totalAllowedDays then
    (ComplianceStatus.violation, violationMessage)
  else
    let percentage : ℚ :=
      ((totalUsedDays : ℚ) / (totalAllowedDays : ℚ)) * 100
    if percentage ≥ 80 then
      (ComplianceStatus.warning, warningMessage)
    else
      (ComplianceStatus.normal, normalMessage)

/-- Embeds calculateUnemployment of calculator.ts, the entry point.  The
optional referenceDate option is passed as an explicit normalized day
number. -/
def calculateUnemployment (optPeriod stemPeriod : Option EADPeriod)
    (employmentSpans : List EmploymentSpan) (referenceDate : Int) :
    Option CalculationResult :=
  match optPeriod with
  | none => none
  | some opt =>
    let phase1 := calculateUnemploymentForPeriod employmentSpans opt
      OPT_UNEMPLOYMENT_LIMIT referenceDate
    match stemPeriod with
    | none =>
      let sm := determineStatus phase1.usedDays OPT_UNEMPLOYMENT_LIMIT
      some { phase1 := phase1
             phase2 := none
             totalUsedDays := phase1.usedDays
             totalAllowedDays := OPT_UNEMPLOYMENT_LIMIT
             status := sm.1
             statusMessage := sm.2 }
    | some stem =>
      let availableStemDays :=
        max 0 (TOTAL_UNEMPLOYMENT_LIMIT_WITH_STEM - phase1.usedDays)
      let phase2 := calculateUnemploymentForPeriod employmentSpans stem
        availableStemDays referenceDate
      let totalUsedDays := phase1.usedDays + phase2.usedDays
      let sm := determineStatus totalUsedDays TOTAL_UNEMPLOYMENT_LIMIT_WITH_STEM
      some { phase1 := phase1
             phase2 := some phase2
             totalUsedDays := totalUsedDays
             totalAllowedDays := TOTAL_UNEMPLOYMENT_LIMIT_WITH_STEM
             status := sm.1
             statusMessage := sm.2 }

/-- Embeds the trim call of the employer-name check: removal of leading and
trailing whitespace, as the ECMAScript trim method does. -/
def trimString (s : String) : String :=
  String.mk (((s.toList.dropWhile Char.isWhitespace).reverse.dropWhile
    Char.isWhitespace).reverse)

/-- Embeds validateEmploymentSpan of calculator.ts (presence of the start
date is enforced by the Lean type). -/
def validateEmploymentSpan (span : EmploymentSpan) : Option String :=
  if trimString span.employerName = "" then
    some "Employer name is required"
  else
    match span.endDate with
    | some e =>
      if e < span.startDate then some "End date must be after start date"
      else none
    | none => none

/-- Embeds validateEADPeriod of calculator.ts (presence of both dates is
enforced by the Lean type). -/
def validateEADPeriod (period : EADPeriod) : Option String :=
  if period.endDate < period.startDate then
    some "End date must be after start date"
  else
    none

/-- Boolean chain predicate on span lists: the first span starts at or after
the lower bound, every span is well formed (start at most end), and every
later span starts at least two days after the previous span ends, so
consecutive gaps exceed one day. -/
def chainFrom : Int → List MergedSpan → Bool
  | _, [] => true
  | lb, s :: rest =>
    decide (lb ≤ s.startDate) && decide (s.startDate ≤ s.endDate) &&
      chainFrom (s.endDate + 2) rest

/-- Sum of inclusive day counts of a span list. -/
def spansLenSum (l : List MergedSpan) : Int :=
  (l.map (fun s => s.endDate - s.startDate + 1)).sum

/-- Day d is covered by some span of the list. -/
def covers (l : List MergedSpan) (d : Int) : Bool :=
  l.any (fun s => decide (s.startDate ≤ d) && decide (d ≤ s.endDate))

/-- Helper: the limit stored in a period summary is the limit passed in. -/
theorem calculateUnemploymentForPeriod_limitDays (spans : List EmploymentSpan)
    (ead : EADPeriod) (limit ref : Int) :
    (calculateUnemploymentForPeriod spans ead limit ref).limitDays = limit := by
  simp only [calculateUnemploymentForPeriod]
  split <;> rfl

/-- Helper: full characterization of determineStatus for a positive
allowance: status by threshold, and the fixed message for each status. -/
theorem determineStatus_spec (u a : Int) (ha : 0 < a) :
    ((determineStatus u a).1 = ComplianceStatus.violation ↔ a < u) ∧
    ((determineStatus u a).1 = ComplianceStatus.warning ↔
      (u ≤ a ∧ (80 : ℚ) / 100 ≤ (u : ℚ) / (a : ℚ))) ∧
    ((determineStatus u a).1 = ComplianceStatus.normal ↔
      (u ≤ a ∧ (u : ℚ) / (a : ℚ) < 80 / 100)) ∧
    ((determineStatus u a).1 = ComplianceStatus.violation →
      (determineStatus u a).2 = violationMessage) ∧
    ((determineStatus u a).1 = ComplianceStatus.warning →
      (determineStatus u a).2 = warningMessage) ∧
    ((determineStatus u a).1 = ComplianceStatus.normal →
      (determineStatus u a).2 = normalMessage) := by
  have haq : (0 : ℚ) < (a : ℚ) := by exact_mod_cast ha
  have hq : ((80 : ℚ) ≤ (u : ℚ) / (a : ℚ) * 100) ↔
      (80 / 100 : ℚ) ≤ (u : ℚ) / (a : ℚ) := by
    constructor <;> intro h <;> linarith
  by_cases h1 : a < u
  · have hds : determineStatus u a = (ComplianceStatus.violation, violationMessage) := by
      simp [determineStatus, h1]
    refine ⟨by simp [hds, h1], ?_, ?_, by simp [hds], by simp [hds], by simp [hds]⟩
    · simp [hds]
      intro h
      exact absurd h (by omega)
    · simp [hds]
      intro h
      exact absurd h (by omega)
  · have h1' : ¬ u > a := by omega
    by_cases h2 : (80 : ℚ) ≤ (u : ℚ) / (a : ℚ) * 100
    · have hds : determineStatus u a = (ComplianceStatus.warning, warningMessage) := by
        simp [determineStatus, h1', h2]
      refine ⟨by simp [hds]; omega, ?_, ?_, by simp [hds], by simp [hds], by simp [hds]⟩
      · simp [hds]
        exact ⟨by omega, hq.mp h2⟩
      · simp [hds]
        intro h
        exact hq.mp h2
    · have hds : determineStatus u a = (ComplianceStatus.normal, normalMessage) := by
        simp [determineStatus, h1', h2]
      push_neg at h2
      refine ⟨by simp [hds]; omega, ?_, ?_, by simp [hds], by simp [hds], by simp [hds]⟩
      · simp [hds]
        intro h
        linarith
      · simp [hds]
        exact ⟨by omega, by linarith⟩

/-- C1: the entry point calculateUnemployment returns none exactly when the
first (OPT) eligibility period is absent; for any supplied first period,
optional second period and any employment list it returns some result (the
pipeline is total). -/
theorem calculateUnemployment_none_iff (optPeriod stemPeriod : Option EADPeriod)
    (spans : List EmploymentSpan) (referenceDate : Int) :
    calculateUnemployment optPeriod stemPeriod spans referenceDate = none ↔
      optPeriod = none := by
  cases optPeriod with
  | none => simp [calculateUnemployment]
  | some opt => cases stemPeriod <;> simp [calculateUnemployment]

/-- C5: the span clamper returns none exactly when the interval (with an
open end resolved to the reference date) starts after the period ends or
ends before the period starts; otherwise it returns the intersection
interval with start max(intervalStart, periodStart) and end
min(intervalEnd, periodEnd). -/
theorem clampSpanToEAD_spec (span : EmploymentSpan) (ead : EADPeriod) (ref : Int) :
    (clampSpanToEAD span ead ref = none ↔
      (span.startDate > ead.endDate ∨ resolveSpanEnd span ref < ead.startDate)) ∧
    (¬(span.startDate > ead.endDate ∨ resolveSpanEnd span ref < ead.startDate) →
      clampSpanToEAD span ead ref =
        some { startDate := max span.startDate ead.startDate,
               endDate := min (resolveSpanEnd span ref) ead.endDate }) := by
  constructor
  · simp only [clampSpanToEAD, normalizeDate]
    split <;> simp_all
  · intro h
    simp only [clampSpanToEAD, normalizeDate]
    split
    · exact absurd (by assumption) h
    · rfl

/-- Witness for C5 at a concrete overlapping input. -/
theorem clampSpanToEAD_spec_witness :
    ¬((3 : Int) > 10 ∨ resolveSpanEnd ⟨"A", 3, some 12⟩ 100 < 0) ∧
    clampSpanToEAD ⟨"A", 3, some 12⟩ ⟨EADType.OPT, 0, 10⟩ 100 =
      some ⟨3, 10⟩ := by
  refine ⟨by decide, ?_⟩
  have h := (clampSpanToEAD_spec ⟨"A", 3, some 12⟩ ⟨EADType.OPT, 0, 10⟩ 100).2
    (by decide)
  rw [h]
  decide

/-- C8: calculateDaysBetween on normalized dates with start at most end is
the calendar difference plus one (inclusive count), and a same-day interval
counts as one day. -/
theorem calculateDaysBetween_spec :
    (∀ s e : Int, s ≤ e → calculateDaysBetween s e = e - s + 1) ∧
    (∀ d : Int, calculateDaysBetween d d = 1) := by
  constructor
  · intro s e _
    simp [calculateDaysBetween, differenceInCalendarDays, normalizeDate]
  · intro d
    simp [calculateDaysBetween, differenceInCalendarDays, normalizeDate]

/-- Witness for C8 at a concrete pair of days. -/
theorem calculateDaysBetween_spec_witness :
    (2 : Int) ≤ 5 ∧ calculateDaysBetween 2 5 = 5 - 2 + 1 :=
  ⟨by decide, calculateDaysBetween_spec.1 2 5 (by decide)⟩

/-- C2: every result produced by the evaluator has status violation exactly
when totalUsedDays exceeds totalAllowedDays, warning exactly when it is not
a violation and the used ratio is at least 80 percent, normal otherwise, and
each status carries its fixed message. -/
theorem calculateUnemployment_status_spec
    (opt : EADPeriod) (stemPeriod : Option EADPeriod)
    (spans : List EmploymentSpan) (referenceDate : Int) (res : CalculationResult)
    (h : calculateUnemployment (some opt) stemPeriod spans referenceDate = some res) :
    (res.status = ComplianceStatus.violation ↔
      res.totalAllowedDays < res.totalUsedDays) ∧
    (res.status = ComplianceStatus.warning ↔
      (res.totalUsedDays ≤ res.totalAllowedDays ∧
        (80 : ℚ) / 100 ≤ (res.totalUsedDays : ℚ) / (res.totalAllowedDays : ℚ))) ∧
    (res.status = ComplianceStatus.normal ↔
      (res.totalUsedDays ≤ res.totalAllowedDays ∧
        (res.totalUsedDays : ℚ) / (res.totalAllowedDays : ℚ) < 80 / 100)) ∧
    (res.status = ComplianceStatus.violation →
      res.statusMessage = violationMessage) ∧
    (res.status = ComplianceStatus.warning →
      res.statusMessage = warningMessage) ∧
    (res.status = ComplianceStatus.normal →
      res.statusMessage = normalMessage) := by
  cases stemPeriod with
  | none =>
    simp only [calculateUnemployment, Option.some.injEq] at h
    subst h
    simpa using determineStatus_spec
      (calculateUnemploymentForPeriod spans opt OPT_UNEMPLOYMENT_LIMIT
        referenceDate).usedDays OPT_UNEMPLOYMENT_LIMIT (by decide)
  | some stem =>
    simp only [calculateUnemployment, Option.some.injEq] at h
    subst h
    simpa using determineStatus_spec
      ((calculateUnemploymentForPeriod spans opt OPT_UNEMPLOYMENT_LIMIT
          referenceDate).usedDays +
        (calculateUnemploymentForPeriod spans stem
          (max 0 (TOTAL_UNEMPLOYMENT_LIMIT_WITH_STEM -
            (calculateUnemploymentForPeriod spans opt OPT_UNEMPLOYMENT_LIMIT
              referenceDate).usedDays)) referenceDate).usedDays)
      TOTAL_UNEMPLOYMENT_LIMIT_WITH_STEM (by decide)

/-- Witness for C2: no employment and an OPT period fully in the past yields
a result satisfying the status characterization. -/
theorem calculateUnemployment_status_spec_witness :
    ((calculateUnemployment (some ⟨EADType.OPT, 0, 200⟩) none [] 300).get
          rfl).status =
        ComplianceStatus.violation ↔
      ((calculateUnemployment (some ⟨EADType.OPT, 0, 200⟩) none [] 300).get
            rfl).totalAllowedDays <
        ((calculateUnemployment (some ⟨EADType.OPT, 0, 200⟩) none [] 300).get
            rfl).totalUsedDays :=
  (calculateUnemployment_status_spec ⟨EADType.OPT, 0, 200⟩ none [] 300 _
    (@Option.some_get _
      (calculateUnemployment (some ⟨EADType.OPT, 0, 200⟩) none [] 300)
      rfl).symm).1

/-- C3: when a second (STEM) period is supplied, its limit is
max(0, 150 minus phase-1 used days), hence never negative, the total used
days are the sum of the two phase used-day counts and the total allowance is
150; with no second period the totals are the phase-1 used days against the
90-day first-phase limit. -/
theorem calculateUnemployment_phase2_spec
    (opt : EADPeriod) (stemPeriod : Option EADPeriod)
    (spans : List EmploymentSpan) (referenceDate : Int) (res : CalculationResult)
    (h : calculateUnemployment (some opt) stemPeriod spans referenceDate = some res) :
    (∀ stem, stemPeriod = some stem →
      ∃ p2, res.phase2 = some p2 ∧
        p2.limitDays =
          max 0 (TOTAL_UNEMPLOYMENT_LIMIT_WITH_STEM - res.phase1.usedDays) ∧
        0 ≤ p2.limitDays ∧
        res.totalUsedDays = res.phase1.usedDays + p2.usedDays ∧
        res.totalAllowedDays = TOTAL_UNEMPLOYMENT_LIMIT_WITH_STEM) ∧
    (stemPeriod = none →
      res.phase2 = none ∧
      res.totalUsedDays = res.phase1.usedDays ∧
      res.totalAllowedDays = OPT_UNEMPLOYMENT_LIMIT) := by
  cases stemPeriod with
  | none =>
    simp only [calculateUnemployment, Option.some.injEq] at h
    subst h
    simp
  | some stem =>
    simp only [calculateUnemployment, Option.some.injEq] at h
    subst h
    refine ⟨fun stem2 h2 => ?_, by simp⟩
    refine ⟨_, rfl, ?_, ?_, rfl, rfl⟩
    · exact calculateUnemploymentForPeriod_limitDays spans stem _ referenceDate
    · rw [calculateUnemploymentForPeriod_limitDays]
      exact le_max_left 0 _

/-- Witness for C3: a concrete STEM input yields a result with a phase-2
summary and the combined allowance. -/
theorem calculateUnemployment_phase2_spec_witness :
    ((calculateUnemployment (some ⟨EADType.OPT, 0, 10⟩)
            (some ⟨EADType.STEM, 11, 20⟩) [] 20).get
          rfl).phase2.isSome = true ∧
    ((calculateUnemployment (some ⟨EADType.OPT, 0, 10⟩)
            (some ⟨EADType.STEM, 11, 20⟩) [] 20).get
          rfl).totalAllowedDays = TOTAL_UNEMPLOYMENT_LIMIT_WITH_STEM := by
  obtain ⟨p2, h1, h2, h3, h4, h5⟩ :=
    (calculateUnemployment_phase2_spec ⟨EADType.OPT, 0, 10⟩
      (some ⟨EADType.STEM, 11, 20⟩) [] 20 _
      (@Option.some_get _
        (calculateUnemployment (some ⟨EADType.OPT, 0, 10⟩)
          (some ⟨EADType.STEM, 11, 20⟩) [] 20)
        rfl).symm).1
      ⟨EADType.STEM, 11, 20⟩ rfl
  exact ⟨by rw [h1]; rfl, h5⟩

/-- Helper: weakening the lower bound of a chain. -/
theorem chainFrom_mono (lb lb' : Int) (l : List MergedSpan)
    (h : chainFrom lb l = true) (hle : lb' ≤ lb) : chainFrom lb' l = true := by
  cases l with
  | nil => rfl
  | cons s rest =>
    simp only [chainFrom, Bool.and_eq_true, decide_eq_true_eq] at h ⊢
    exact ⟨⟨by omega, h.1.2⟩, h.2⟩

/-- Helper: every member of a chain starts at or after the lower bound. -/
theorem chainFrom_mem_lb : ∀ (l : List MergedSpan) (lb : Int),
    chainFrom lb l = true → ∀ s ∈ l, lb ≤ s.startDate := by
  intro l
  induction l with
  | nil =>
    intro lb _ s hs
    cases hs
  | cons a rest ih =>
    intro lb h s hs
    simp only [chainFrom, Bool.and_eq_true, decide_eq_true_eq] at h
    rcases List.mem_cons.mp hs with rfl | hs'
    · exact h.1.1
    · have := ih (a.endDate + 2) h.2 s hs'
      have h1 := h.1.1
      have h2 := h.1.2
      omega

/-- Helper: a chain is sorted by start date. -/
theorem chainFrom_pairwise : ∀ (l : List MergedSpan) (lb : Int),
    chainFrom lb l = true →
    List.Pairwise (fun a b : MergedSpan => a.startDate ≤ b.startDate) l := by
  intro l
  induction l with
  | nil =>
    intro lb _
    exact List.Pairwise.nil
  | cons a rest ih =>
    intro lb h
    simp only [chainFrom, Bool.and_eq_true, decide_eq_true_eq] at h
    refine List.Pairwise.cons ?_ (ih _ h.2)
    intro b hb
    have := chainFrom_mem_lb rest (a.endDate + 2) h.2 b hb
    have h2 := h.1.2
    omega

/-- Helper: the merge loop never returns an empty list. -/
theorem mergeAux_ne_nil : ∀ (rest : List MergedSpan) (current : MergedSpan),
    mergeAux current rest ≠ [] := by
  intro rest
  induction rest with
  | nil =>
    intro current
    simp [mergeAux]
  | cons next rest ih =>
    intro current
    simp only [mergeAux]
    split
    · exact ih _
    · simp

/-- Helper: on a sorted input of well-formed spans the merge loop produces a
chain starting at the start of the accumulator. -/
theorem mergeAux_chain : ∀ (rest : List MergedSpan) (current : MergedSpan),
    current.startDate ≤ current.endDate →
    (∀ s ∈ rest, s.startDate ≤ s.endDate) →
    List.Pairwise (fun a b : MergedSpan => a.startDate ≤ b.startDate)
      (current :: rest) →
    chainFrom current.startDate (mergeAux current rest) = true := by
  intro rest
  induction rest with
  | nil =>
    intro current hc _ _
    simp [mergeAux, chainFrom, hc]
  | cons next rest ih =>
    intro current hc hwf hsorted
    rw [List.pairwise_cons] at hsorted
    obtain ⟨hcle, hplist⟩ := hsorted
    have hnext_wf : next.startDate ≤ next.endDate := hwf next (by simp)
    have hrest_wf : ∀ s ∈ rest, s.startDate ≤ s.endDate :=
      fun s hs => hwf s (by simp [hs])
    obtain ⟨hnext_le, hrest_pw⟩ := List.pairwise_cons.mp hplist
    simp only [mergeAux, differenceInCalendarDays]
    split
    · rename_i hgap
      exact ih ⟨current.startDate, max current.endDate next.endDate⟩
        (le_trans hc (le_max_left _ _))
        hrest_wf
        (List.pairwise_cons.mpr
          ⟨fun b hb => hcle b (by simp [hb]), hrest_pw⟩)
    · rename_i hgap
      have hch := ih next hnext_wf hrest_wf hplist
      simp only [chainFrom, Bool.and_eq_true, decide_eq_true_eq]
      refine ⟨⟨le_refl _, hc⟩, ?_⟩
      exact chainFrom_mono next.startDate (current.endDate + 2) _ hch (by omega)

/-- Helper: the merge loop keeps every end date below any common upper
bound. -/
theorem mergeAux_end_le : ∀ (rest : List MergedSpan) (current : MergedSpan)
    (E : Int), current.endDate ≤ E → (∀ s ∈ rest, s.endDate ≤ E) →
    ∀ s ∈ mergeAux current rest, s.endDate ≤ E := by
  intro rest
  induction rest with
  | nil =>
    intro current E hc _ s hs
    simp only [mergeAux, List.mem_singleton] at hs
    subst hs
    exact hc
  | cons next rest ih =>
    intro current E hc hrest s hs
    simp only [mergeAux, differenceInCalendarDays] at hs
    split at hs
    · exact ih _ E (max_le hc (hrest next (by simp)))
        (fun t ht => hrest t (by simp [ht])) s hs
    · rcases List.mem_cons.mp hs with rfl | hs'
      · exact hc
      · exact ih next E (hrest next (by simp))
          (fun t ht => hrest t (by simp [ht])) s hs'

/-- Helper: the fold of calculateEmployedDays computes the sum of inclusive
day counts. -/
theorem foldl_days_eq : ∀ (l : List MergedSpan) (a : Int),
    l.foldl
      (fun total span => total + calculateDaysBetween span.startDate span.endDate)
      a = a + spansLenSum l := by
  intro l
  induction l with
  | nil =>
    intro a
    simp [spansLenSum]
  | cons s rest ih =>
    intro a
    simp only [List.foldl_cons]
    rw [ih]
    simp only [spansLenSum, List.map_cons, List.sum_cons,
      calculateDaysBetween, differenceInCalendarDays, normalizeDate]
    ring

/-- Helper: a chain has a nonnegative total day count. -/
theorem chainFrom_sum_nonneg : ∀ (l : List MergedSpan) (lb : Int),
    chainFrom lb l = true → 0 ≤ spansLenSum l := by
  intro l
  induction l with
  | nil =>
    intro lb _
    simp [spansLenSum]
  | cons s rest ih =>
    intro lb h
    simp only [chainFrom, Bool.and_eq_true, decide_eq_true_eq] at h
    have h1 := ih _ h.2
    have h2 := h.1.2
    simp only [spansLenSum, List.map_cons, List.sum_cons] at h1 ⊢
    omega

/-- Helper: a nonempty chain bounded above by E has total day count at most
E minus the lower bound plus one. -/
theorem chainFrom_sum_le : ∀ (l : List MergedSpan) (lb E : Int),
    chainFrom lb l = true → (∀ s ∈ l, s.endDate ≤ E) → l ≠ [] →
    spansLenSum l ≤ E - lb + 1 := by
  intro l
  induction l with
  | nil =>
    intro lb E _ _ hne
    exact absurd rfl hne
  | cons s rest ih =>
    intro lb E h hendb _
    simp only [chainFrom, Bool.and_eq_true, decide_eq_true_eq] at h
    obtain ⟨⟨hlb, hse⟩, hchain⟩ := h
    have hsE : s.endDate ≤ E := hendb s (by simp)
    cases rest with
    | nil =>
      simp only [spansLenSum, List.map_cons, List.map_nil, List.sum_cons,
        List.sum_nil]
      omega
    | cons t rest2 =>
      have hrest := ih (s.endDate + 2) E hchain
        (fun u hu => hendb u (by simp [hu])) (by simp)
      simp only [spansLenSum, List.map_cons, List.sum_cons] at hrest ⊢
      omega

/-- Helper: a surviving clamped span lies inside the period and is well
formed, provided an explicit end date is not before the span start and an
open-ended span either starts by the reference date or the period ends by
the reference date. -/
theorem clampSpanToEAD_some_bounds (span : EmploymentSpan) (ead : EADPeriod)
    (ref : Int) (c : MergedSpan)
    (hperiod : ead.startDate ≤ ead.endDate)
    (hend : ∀ e, span.endDate = some e → span.startDate ≤ e)
    (hopen : span.endDate = none → span.startDate ≤ ref ∨ ead.endDate ≤ ref)
    (h : clampSpanToEAD span ead ref = some c) :
    ead.startDate ≤ c.startDate ∧ c.startDate ≤ c.endDate ∧
      c.endDate ≤ ead.endDate := by
  simp only [clampSpanToEAD, normalizeDate] at h
  split at h
  · exact absurd h (by simp)
  · rename_i hcond
    push_neg at hcond
    obtain ⟨h1, h2⟩ := hcond
    have hstart_le_rend : span.startDate ≤ resolveSpanEnd span ref := by
      cases hsd : span.endDate with
      | some e =>
        simpa [resolveSpanEnd, hsd, normalizeDate] using hend e hsd
      | none =>
        simp only [resolveSpanEnd, hsd]
        rcases hopen hsd with ho | ho
        · exact ho
        · exact le_trans h1 ho
    obtain rfl := (Option.some.inj h)
    refine ⟨le_max_right _ _, ?_, min_le_right _ _⟩
    exact le_min (max_le hstart_le_rend h2) (max_le h1 hperiod)

/-- Helper: with per-span well-formedness side conditions, the employed-day
total is nonnegative and bounded by the inclusive day count of the
period. -/
theorem calculateEmployedDays_bounds (spans : List EmploymentSpan)
    (ead : EADPeriod) (ref : Int)
    (hperiod : ead.startDate ≤ ead.endDate)
    (hend : ∀ s ∈ spans, ∀ e, s.endDate = some e → s.startDate ≤ e)
    (hopen : ∀ s ∈ spans, s.endDate = none →
      s.startDate ≤ ref ∨ ead.endDate ≤ ref) :
    0 ≤ calculateEmployedDays spans ead ref ∧
      calculateEmployedDays spans ead ref ≤
        calculateDaysBetween ead.startDate ead.endDate := by
  set clamped := spans.filterMap (fun span => clampSpanToEAD span ead ref)
    with hclamped
  have hbounds : ∀ c ∈ clamped, ead.startDate ≤ c.startDate ∧
      c.startDate ≤ c.endDate ∧ c.endDate ≤ ead.endDate := by
    intro c hc
    rw [hclamped, List.mem_filterMap] at hc
    obtain ⟨s, hs, hcs⟩ := hc
    exact clampSpanToEAD_some_bounds s ead ref c hperiod (hend s hs)
      (hopen s hs) hcs
  set sorted := sortSpansByStart clamped with hsorted_def
  have hperm : sorted.Perm clamped := List.perm_insertionSort _ _
  have hbounds' : ∀ c ∈ sorted, ead.startDate ≤ c.startDate ∧
      c.startDate ≤ c.endDate ∧ c.endDate ≤ ead.endDate :=
    fun c hc => hbounds c (hperm.mem_iff.mp hc)
  have hpw : List.Pairwise (fun a b : MergedSpan => a.startDate ≤ b.startDate)
      sorted := by
    rw [hsorted_def]
    exact @List.sorted_insertionSort MergedSpan
      (fun a b => a.startDate ≤ b.startDate) _
      ⟨fun a b => le_total a.startDate b.startDate⟩
      ⟨fun a b c hab hbc => le_trans hab hbc⟩ clamped
  have hcdb : calculateDaysBetween ead.startDate ead.endDate =
      ead.endDate - ead.startDate + 1 := by
    simp [calculateDaysBetween, differenceInCalendarDays, normalizeDate]
  have hlink : calculateEmployedDays spans ead ref =
      spansLenSum (mergeOverlappingSpans sorted) := by
    simp only [calculateEmployedDays]
    rw [← hclamped, ← hsorted_def, foldl_days_eq]
    ring
  rw [hlink, hcdb]
  cases hs : sorted with
  | nil =>
    simp [mergeOverlappingSpans, spansLenSum]
    omega
  | cons c rest =>
    have hb_c := hbounds' c (by rw [hs]; simp)
    have hc_wf : c.startDate ≤ c.endDate := hb_c.2.1
    have hwf_rest : ∀ s ∈ rest, s.startDate ≤ s.endDate :=
      fun s hs2 => (hbounds' s (by rw [hs]; simp [hs2])).2.1
    have hpw' : List.Pairwise
        (fun a b : MergedSpan => a.startDate ≤ b.startDate) (c :: rest) :=
      hs ▸ hpw
    have hchain := mergeAux_chain rest c hc_wf hwf_rest hpw'
    have hends : ∀ s ∈ mergeAux c rest, s.endDate ≤ ead.endDate :=
      mergeAux_end_le rest c ead.endDate hb_c.2.2
        (fun s hs2 => (hbounds' s (by rw [hs]; simp [hs2])).2.2)
    have hnn := chainFrom_sum_nonneg (mergeAux c rest) c.startDate hchain
    have hle := chainFrom_sum_le (mergeAux c rest) c.startDate ead.endDate
      hchain hends (mergeAux_ne_nil rest c)
    have hcstart := hb_c.1
    simp only [mergeOverlappingSpans]
    omega

/-- C4: the period accountant short-circuits to zero used days and the full
limit when the effective window ends before the period starts; otherwise
used days are the effective-window day count minus employed days floored at
zero, remaining is the limit minus used floored at zero, the percentage
follows the guarded division formula, and (accounting identity, for a
validated employment list) used plus employed days equal the day count of
the effective window. -/
theorem calculateUnemploymentForPeriod_spec (spans : List EmploymentSpan)
    (ead : EADPeriod) (limit ref : Int)
    (hvalid : ∀ s ∈ spans, validateEmploymentSpan s = none) :
    (min ead.endDate ref < ead.startDate →
      calculateUnemploymentForPeriod spans ead limit ref =
        { phase := ead.ptype, usedDays := 0, remainingDays := limit,
          limitDays := limit, percentage := 0 }) ∧
    (¬ min ead.endDate ref < ead.startDate →
      (calculateUnemploymentForPeriod spans ead limit ref).usedDays =
        max 0 (calculateDaysBetween ead.startDate (min ead.endDate ref) -
          calculateEmployedDays spans
            ⟨ead.ptype, ead.startDate, min ead.endDate ref⟩ ref) ∧
      (calculateUnemploymentForPeriod spans ead limit ref).remainingDays =
        max 0 (limit -
          (calculateUnemploymentForPeriod spans ead limit ref).usedDays) ∧
      (calculateUnemploymentForPeriod spans ead limit ref).percentage =
        (if limit > 0 then
          (((calculateUnemploymentForPeriod spans ead limit ref).usedDays : ℚ) /
              (limit : ℚ)) * 100
          else if (calculateUnemploymentForPeriod spans ead limit ref).usedDays > 0
            then 100
          else 0) ∧
      (calculateUnemploymentForPeriod spans ead limit ref).usedDays +
          calculateEmployedDays spans
            ⟨ead.ptype, ead.startDate, min ead.endDate ref⟩ ref =
        calculateDaysBetween ead.startDate (min ead.endDate ref)) := by
  constructor
  · intro h
    simp only [calculateUnemploymentForPeriod, normalizeDate]
    rw [if_pos h]
  · intro h
    have hend : ∀ s ∈ spans, ∀ e, s.endDate = some e → s.startDate ≤ e := by
      intro s hs e he
      have hv := hvalid s hs
      simp only [validateEmploymentSpan, he] at hv
      split at hv
      · exact absurd hv (by simp)
      · split at hv
        · exact absurd hv (by simp)
        · rename_i hlt
          omega
    have hb : 0 ≤ calculateEmployedDays spans
          ⟨ead.ptype, ead.startDate, min ead.endDate ref⟩ ref ∧
        calculateEmployedDays spans
            ⟨ead.ptype, ead.startDate, min ead.endDate ref⟩ ref ≤
          calculateDaysBetween ead.startDate (min ead.endDate ref) :=
      calculateEmployedDays_bounds spans
        ⟨ead.ptype, ead.startDate, min ead.endDate ref⟩ ref
        (by simp only; omega)
        hend
        (fun s _ _ => Or.inr (by simp only; exact min_le_right _ _))
    obtain ⟨hb0, hb1⟩ := hb
    simp only [calculateUnemploymentForPeriod, normalizeDate]
    rw [if_neg h]
    refine ⟨rfl, rfl, rfl, ?_⟩
    simp only [calculateDaysBetween, differenceInCalendarDays, normalizeDate]
      at hb0 hb1 ⊢
    omega

/-- Witness for C4 at a concrete validated input with one employment span
inside the period. -/
theorem calculateUnemploymentForPeriod_spec_witness :
    (calculateUnemploymentForPeriod [⟨"Acme", 2, some 4⟩]
          ⟨EADType.OPT, 0, 10⟩ 90 20).usedDays +
        calculateEmployedDays [⟨"Acme", 2, some 4⟩]
          ⟨EADType.OPT, 0, min (10 : Int) 20⟩ 20 =
      calculateDaysBetween 0 (min (10 : Int) 20) := by
  have h := (calculateUnemploymentForPeriod_spec [⟨"Acme", 2, some 4⟩]
    ⟨EADType.OPT, 0, 10⟩ 90 20 (by decide)).2 (by decide)
  exact h.2.2.2

/-- C9: for a well-formed eligibility period, a clamped result of a span
whose resolved end is at or after its start is itself well formed, and for
any span list whose resolved ends are at or after their starts the
employed-day total is nonnegative and bounded by the day count of the
period. -/
theorem clamp_employed_invariant (ead : EADPeriod) (ref : Int)
    (hperiod : ead.startDate ≤ ead.endDate) :
    (∀ (span : EmploymentSpan) (c : MergedSpan),
      span.startDate ≤ resolveSpanEnd span ref →
      clampSpanToEAD span ead ref = some c → c.startDate ≤ c.endDate) ∧
    (∀ spans : List EmploymentSpan,
      (∀ s ∈ spans, s.startDate ≤ resolveSpanEnd s ref) →
      0 ≤ calculateEmployedDays spans ead ref ∧
        calculateEmployedDays spans ead ref ≤
          calculateDaysBetween ead.startDate ead.endDate) := by
  constructor
  · intro span c hse hc
    have hend : ∀ e, span.endDate = some e → span.startDate ≤ e := by
      intro e he
      simpa [resolveSpanEnd, he, normalizeDate] using hse
    have hopen : span.endDate = none →
        span.startDate ≤ ref ∨ ead.endDate ≤ ref := by
      intro he
      left
      simpa [resolveSpanEnd, he] using hse
    exact (clampSpanToEAD_some_bounds span ead ref c hperiod hend hopen hc).2.1
  · intro spans hres
    apply calculateEmployedDays_bounds spans ead ref hperiod
    · intro s hs e he
      simpa [resolveSpanEnd, he, normalizeDate] using hres s hs
    · intro s hs he
      left
      simpa [resolveSpanEnd, he] using hres s hs

/-- Witness for C9 at a concrete period and span list. -/
theorem clamp_employed_invariant_witness :
    0 ≤ calculateEmployedDays [⟨"X", 2, some 4⟩] ⟨EADType.OPT, 0, 10⟩ 20 ∧
      calculateEmployedDays [⟨"X", 2, some 4⟩] ⟨EADType.OPT, 0, 10⟩ 20 ≤
        calculateDaysBetween 0 10 :=
  (clamp_employed_invariant ⟨EADType.OPT, 0, 10⟩ 20 (by decide)).2
    [⟨"X", 2, some 4⟩] (by decide)

/-- C6: the span merger (stable sort by start date followed by the merge
walk) maps the empty collection to the empty collection, turns any
collection of well-formed intervals into a chain (ascending, disjoint, with
every consecutive gap above one day), coalesces a sorted pair at gap at most
one day into a single interval ending at the later end, and keeps a sorted
pair at gap above one day separate. -/
theorem merger_spec (l : List MergedSpan)
    (hwf : ∀ s ∈ l, s.startDate ≤ s.endDate) :
    (mergeOverlappingSpans (sortSpansByStart ([] : List MergedSpan)) = []) ∧
    (∀ lb : Int, (∀ s ∈ l, lb ≤ s.startDate) →
      chainFrom lb (mergeOverlappingSpans (sortSpansByStart l)) = true) ∧
    (∀ a b : MergedSpan, a.startDate ≤ b.startDate →
      (b.startDate - a.endDate ≤ 1 →
        mergeOverlappingSpans (sortSpansByStart [a, b]) =
          [⟨a.startDate, max a.endDate b.endDate⟩]) ∧
      (b.startDate - a.endDate > 1 →
        mergeOverlappingSpans (sortSpansByStart [a, b]) = [a, b])) := by
  refine ⟨rfl, ?_, ?_⟩
  · intro lb hlb
    have hpw : List.Pairwise
        (fun a b : MergedSpan => a.startDate ≤ b.startDate)
        (sortSpansByStart l) :=
      @List.sorted_insertionSort MergedSpan
        (fun a b => a.startDate ≤ b.startDate) _
        ⟨fun a b => le_total a.startDate b.startDate⟩
        ⟨fun a b c hab hbc => le_trans hab hbc⟩ l
    have hperm : (sortSpansByStart l).Perm l := List.perm_insertionSort _ _
    cases hs : sortSpansByStart l with
    | nil => rfl
    | cons c rest =>
      have hmem : ∀ s ∈ c :: rest, s ∈ l :=
        fun s hsm => hperm.mem_iff.mp (hs ▸ hsm)
      have hc_wf : c.startDate ≤ c.endDate := hwf c (hmem c (by simp))
      have hrest_wf : ∀ s ∈ rest, s.startDate ≤ s.endDate :=
        fun s hs2 => hwf s (hmem s (by simp [hs2]))
      have hchain := mergeAux_chain rest c hc_wf hrest_wf (hs ▸ hpw)
      have hlbc : lb ≤ c.startDate := hlb c (hmem c (by simp))
      simp only [mergeOverlappingSpans]
      exact chainFrom_mono c.startDate lb _ hchain hlbc
  · intro a b hab
    have hsorted : sortSpansByStart [a, b] = [a, b] := by
      apply List.Sorted.insertionSort_eq
      refine List.pairwise_cons.mpr ⟨?_, by simp⟩
      intro b' hb'
      simp only [List.mem_singleton] at hb'
      subst hb'
      exact hab
    constructor
    · intro hgap
      rw [hsorted]
      simp only [mergeOverlappingSpans, mergeAux, differenceInCalendarDays]
      rw [if_pos hgap]
    · intro hgap
      rw [hsorted]
      simp only [mergeOverlappingSpans, mergeAux, differenceInCalendarDays]
      rw [if_neg (by omega)]

/-- Witness for C6: an unsorted well-formed input yields a chain starting at
its least start date. -/
theorem merger_spec_witness :
    chainFrom 0
      (mergeOverlappingSpans (sortSpansByStart [⟨5, 8⟩, ⟨0, 2⟩])) = true :=
  (merger_spec [⟨5, 8⟩, ⟨0, 2⟩] (by decide)).2.1 0 (by decide)

/-- Helper: the merge loop leaves a chain unchanged. -/
theorem mergeAux_chain_eq : ∀ (rest : List MergedSpan) (current : MergedSpan)
    (lb : Int), chainFrom lb (current :: rest) = true →
    mergeAux current rest = current :: rest := by
  intro rest
  induction rest with
  | nil =>
    intro current lb _
    rfl
  | cons next rest2 ih =>
    intro current lb h
    simp only [chainFrom, Bool.and_eq_true, decide_eq_true_eq] at h
    have h2 : chainFrom (current.endDate + 2) (next :: rest2) = true := by
      simp only [chainFrom, Bool.and_eq_true, decide_eq_true_eq]
      exact ⟨⟨h.2.1.1, h.2.1.2⟩, h.2.2⟩
    have hbound : current.endDate + 2 ≤ next.startDate := h.2.1.1
    simp only [mergeAux, differenceInCalendarDays]
    rw [if_neg (by omega)]
    congr 1
    exact ih next (current.endDate + 2) h2

/-- C7: merging is idempotent, in that the span merger returns any already
merged list (a chain: sorted ascending, disjoint, every consecutive gap
above one day) unchanged. -/
theorem merge_idempotent (l : List MergedSpan) (lb : Int)
    (h : chainFrom lb l = true) :
    mergeOverlappingSpans (sortSpansByStart l) = l := by
  have hpw := chainFrom_pairwise l lb h
  have hsorted : sortSpansByStart l = l := List.Sorted.insertionSort_eq hpw
  rw [hsorted]
  cases l with
  | nil => rfl
  | cons c rest => exact mergeAux_chain_eq rest c lb h

/-- Witness for C7: a concrete already-merged list is returned unchanged. -/
theorem merge_idempotent_witness :
    chainFrom 0 [(⟨0, 2⟩ : MergedSpan), ⟨5, 6⟩] = true ∧
    mergeOverlappingSpans (sortSpansByStart [(⟨0, 2⟩ : MergedSpan), ⟨5, 6⟩]) =
      [⟨0, 2⟩, ⟨5, 6⟩] :=
  ⟨by decide, merge_idempotent [⟨0, 2⟩, ⟨5, 6⟩] 0 (by decide)⟩

/-- Helper: coverage of a cons cell unfolds to the head check or coverage of
the tail. -/
theorem covers_cons (s : MergedSpan) (l : List MergedSpan) (d : Int) :
    covers (s :: l) d =
      ((decide (s.startDate ≤ d) && decide (d ≤ s.endDate)) || covers l d) :=
  rfl

/-- Helper: the merge loop never loses coverage on a sorted input. -/
theorem mergeAux_covers : ∀ (rest : List MergedSpan) (current : MergedSpan)
    (d : Int),
    List.Pairwise (fun a b : MergedSpan => a.startDate ≤ b.startDate)
      (current :: rest) →
    covers (current :: rest) d = true →
    covers (mergeAux current rest) d = true := by
  intro rest
  induction rest with
  | nil =>
    intro current d _ hd
    exact hd
  | cons next rest2 ih =>
    intro current d hpw hd
    obtain ⟨hcle, hplist⟩ := List.pairwise_cons.mp hpw
    simp only [mergeAux, differenceInCalendarDays]
    split
    · rename_i hgap
      apply ih ⟨current.startDate, max current.endDate next.endDate⟩ d
      · refine List.pairwise_cons.mpr ⟨?_, (List.pairwise_cons.mp hplist).2⟩
        intro b hb
        exact hcle b (by simp [hb])
      · simp only [covers_cons, Bool.or_eq_true, Bool.and_eq_true,
          decide_eq_true_eq] at hd ⊢
        rcases hd with hcur | hnext | hrest2
        · exact Or.inl ⟨hcur.1, le_trans hcur.2 (le_max_left _ _)⟩
        · exact Or.inl ⟨le_trans (hcle next (by simp)) hnext.1,
            le_trans hnext.2 (le_max_right _ _)⟩
        · exact Or.inr hrest2
    · rename_i hgap
      simp only [covers_cons, Bool.or_eq_true, Bool.and_eq_true,
        decide_eq_true_eq] at hd ⊢
      rcases hd with hcur | htail
      · exact Or.inl hcur
      · refine Or.inr (ih next d hplist ?_)
        simp only [covers_cons, Bool.or_eq_true, Bool.and_eq_true,
          decide_eq_true_eq]
        exact htail

/-- C10: merging a sorted list of well-formed intervals never removes
coverage; every day covered by an input interval is covered by an output
interval. -/
theorem merge_covers (l : List MergedSpan)
    (hsorted : List.Pairwise
      (fun a b : MergedSpan => a.startDate ≤ b.startDate) l)
    (hwf : ∀ s ∈ l, s.startDate ≤ s.endDate) (d : Int)
    (hd : covers l d = true) :
    covers (mergeOverlappingSpans l) d = true := by
  cases l with
  | nil => exact absurd hd (by simp [covers])
  | cons c rest => exact mergeAux_covers rest c d hsorted hd

/-- Witness for C10: day 4 of the second input interval stays covered after
the two intervals with a one-day seam are coalesced. -/
theorem merge_covers_witness :
    covers (mergeOverlappingSpans [(⟨0, 2⟩ : MergedSpan), ⟨3, 5⟩]) 4 = true :=
  merge_covers [⟨0, 2⟩, ⟨3, 5⟩] (by decide) (by decide) 4 (by decide)
